import Mathlib

/-!
Shallow embedding of `inject.go` (package `inject`, repository bino7/inject).

The package is a reflection-based dependency registry: a map from runtime
type descriptors (`reflect.Type`) to values (`reflect.Value`), with a
parent-chain fallback, an invoker and a struct applicator reading from the
map, and a small event bus layered on top.

Modelling conventions:

* `Ty` models `reflect.Type` for the kinds the code inspects: interface
  types (identified by a numeric id), concrete non-interface, non-pointer
  types (carrying the set of interface ids their method set satisfies, which
  models Go's `Type.Implements`), and pointer types.
* `Val` models `reflect.Value`: an opaque payload tagged with its dynamic
  type.  `reflect.TypeOf(v)` is `Val.ty`.  An invalid (zero) `reflect.Value`
  — the "not found" sentinel of `Get` — is modelled by `Option.none`.
* The Go map `values map[reflect.Type]reflect.Value` is modelled as an
  association list with unique keys; Go map assignment is `insertVal`
  (replace the binding if the key is present, append otherwise).  Go map
  iteration order is unspecified; the model fixes it to list order, which is
  one admissible schedule.
* The Go struct `injector` has a nullable `parent *injector`; the model
  splits it into two constructors, `root` (parent == nil) and `child`
  (parent set), so that all functions are structurally recursive.  The `id`
  field models the pointer identity of the injector (`Event.Src` stores it).
* The unbuffered channel `events chan Event` is modelled by the list of
  events sent on it, in send order.
-/

/-- Model of `reflect.Type` restricted to what the source inspects:
`Kind() == Interface`, `Kind() == Ptr`, `Elem()`, and `Implements`. -/
inductive Ty where
  /-- An interface type, identified by `id`. -/
  | iface (id : Nat)
  /-- A concrete (non-interface, non-pointer) type; `impls` is the set of
  interface ids its method set satisfies, modelling `Type.Implements`. -/
  | conc (id : Nat) (impls : List Nat)
  /-- A pointer type with element type `elem`. -/
  | ptr (elem : Ty)
deriving DecidableEq

/-- `t.Kind() == reflect.Interface` in Go. -/
def Ty.isInterface : Ty → Bool
  | .iface _ => true
  | _ => false

/-- `k.Implements(t)` for an interface type `t`: an interface implements
itself; a concrete type implements the interfaces listed in `impls`; on a
non-interface `t` the call never happens in the source (guarded by
`t.Kind() == reflect.Interface`), modelled as `false`. -/
def Ty.implements : Ty → Ty → Bool
  | .iface m, .iface n => m == n
  | .conc _ impls, .iface n => impls.contains n
  | _, _ => false

/-- Model of a (valid) `reflect.Value`: an opaque payload `data` carrying
its dynamic type `ty` (`reflect.TypeOf`). -/
structure Val where
  ty : Ty
  data : Nat
deriving DecidableEq

instance : Inhabited Val := ⟨⟨Ty.iface 0, 0⟩⟩

/-- Go map read `m[t]` (comma-ok form): the value bound to key `t`. -/
def lookupVal : List (Ty × Val) → Ty → Option Val
  | [], _ => none
  | (k, w) :: rest, t => if k = t then some w else lookupVal rest t

/-- Go map assignment `m[t] = v`: replace the binding if the key is
present, otherwise add it. -/
def insertVal : List (Ty × Val) → Ty → Val → List (Ty × Val)
  | [], t, v => [(t, v)]
  | (k, w) :: rest, t, v =>
    if k = t then (t, v) :: rest else (k, w) :: insertVal rest t v

/-- The implementor scan in `injector.Get`:
`for k, v := range i.values { if k.Implements(t) { val = v; break } }` —
the first binding (in iteration order) whose key implements `t`. -/
def scanImpl : List (Ty × Val) → Ty → Option Val
  | [], _ => none
  | (k, v) :: rest, t => if k.implements t then some v else scanImpl rest t

/-- Model of a handler's `reflect.Type` as inspected by `validateHandler`:
whether `Kind() == reflect.Func`, and the declared parameter types. -/
structure HandlerSig where
  isFunc : Bool
  params : List Ty
deriving DecidableEq

/-- The two panics `validateHandler` can raise. -/
inductive PanicKind where
  /-- `panic("inject handler must be a callable func")`. -/
  | notFunc
  /-- The runtime panic raised by `t.In(0)` on a zero-parameter func:
  when `t.NumIn() == 0` is true, the short-circuit `&&` still evaluates
  its right operand `t.In(0) != Event.Type`, and `reflect.Type.In` panics
  on an out-of-range index. -/
  | reflectInRange
deriving DecidableEq

/-- `validateHandler` from the source, including the defect in
`if t.NumIn() == 0 && t.In(0) != Event.Type`: with `&&` (not `||`), a func
with zero parameters panics inside `t.In(0)` before any comparison, and a
func with one or more parameters passes with its first parameter never
compared against the `Event` type. -/
def validateHandler (h : HandlerSig) : Option PanicKind :=
  if !h.isFunc then some PanicKind.notFunc
  else if h.params.isEmpty then some PanicKind.reflectInRange
  else none

/-- Model of the `Event` struct.  `Src` holds the firing injector's
identity (a pointer in Go, the numeric `id` in the model); `Type` is
rendered as `typ` because `Type` is reserved in Lean. -/
structure Event where
  Src : Nat
  typ : String
  Data : Val
deriving DecidableEq

/-- Model of the `injector` struct.  Go's nullable `parent *injector`
becomes two constructors: `root` (nil parent) and `child` (parent set). -/
inductive Injector where
  | root (id : Nat) (values : List (Ty × Val))
      (handlers : List (String × List HandlerSig)) (events : List Event)
  | child (id : Nat) (values : List (Ty × Val))
      (handlers : List (String × List HandlerSig)) (events : List Event)
      (parent : Injector)
deriving DecidableEq

namespace Injector

/-- The `id` field (pointer identity). -/
def id : Injector → Nat
  | .root i _ _ _ => i
  | .child i _ _ _ _ => i

/-- The `values` field. -/
def values : Injector → List (Ty × Val)
  | .root _ vs _ _ => vs
  | .child _ vs _ _ _ => vs

/-- The `handlers` field. -/
def handlers : Injector → List (String × List HandlerSig)
  | .root _ _ tbl _ => tbl
  | .child _ _ tbl _ _ => tbl

/-- The contents of the `events` channel, in send order. -/
def events : Injector → List Event
  | .root _ _ _ es => es
  | .child _ _ _ es _ => es

/-- The `parent` field (`none` models a nil parent). -/
def parent : Injector → Option Injector
  | .root _ _ _ _ => none
  | .child _ _ _ _ p => some p

/-- Replace the `values` field. -/
def withValues : Injector → List (Ty × Val) → Injector
  | .root i _ tbl es, vs => .root i vs tbl es
  | .child i _ tbl es p, vs => .child i vs tbl es p

/-- Replace the `handlers` field. -/
def withHandlers : Injector → List (String × List HandlerSig) → Injector
  | .root i vs _ es, tbl => .root i vs tbl es
  | .child i vs _ es p, tbl => .child i vs tbl es p

/-- Replace the `events` field. -/
def withEvents : Injector → List Event → Injector
  | .root i vs tbl _, es => .root i vs tbl es
  | .child i vs tbl _ p, es => .child i vs tbl es p

/-- `New()`: fresh injector with empty maps and a nil parent.  `i` models
the address of the allocation. -/
def New (i : Nat) : Injector := .root i [] [] []

/-- The local part of `injector.Get`: the exact-match lookup, then (for an
interface type) the implementor scan. -/
def localGet (vs : List (Ty × Val)) (t : Ty) : Option Val :=
  match lookupVal vs t with
  | some v => some v
  | none => if t.isInterface then scanImpl vs t else none

/-- `injector.Get`: exact match in the local map; else, for an interface
type, the first locally registered binding whose key implements it; else
the parent's `Get`; else the invalid zero `reflect.Value` (`none`). -/
def Get : Injector → Ty → Option Val
  | .root _ vs _ _, t => localGet vs t
  | .child _ vs _ _ p, t =>
    match localGet vs t with
    | some v => some v
    | none => Get p t

/-- `injector.Map`: bind `val` under `reflect.TypeOf(val)`. -/
def Map (i : Injector) (v : Val) : Injector :=
  i.withValues (insertVal i.values v.ty v)

/-- `injector.Set`: bind `val` under the explicitly supplied type `t`
(no check that `v` is assignable to `t`). -/
def SetVal (i : Injector) (t : Ty) (v : Val) : Injector :=
  i.withValues (insertVal i.values t v)

/-- `injector.SetParent`: assign (or replace) the parent. -/
def SetParent (i : Injector) (p : Injector) : Injector :=
  match i with
  | .root n vs tbl es => .child n vs tbl es p
  | .child n vs tbl es _ => .child n vs tbl es p

end Injector

/-- `InterfaceOf`: dereference pointers (`for t.Kind() == reflect.Ptr`),
then return `t` if it is an interface type and panic (`none`) otherwise.
The argument stands for `reflect.TypeOf(value)` of the witness. -/
def InterfaceOf : Ty → Option Ty
  | .ptr t => InterfaceOf t
  | .iface n => some (.iface n)
  | .conc _ _ => none

/-- `injector.MapTo`: bind `val` under `InterfaceOf(ifacePtr)`.  `none`
models the panic propagated out of `InterfaceOf`; no assignability check
between `v` and the interface type is performed. -/
def Injector.MapTo (i : Injector) (v : Val) (ifacePtr : Ty) : Option Injector :=
  match InterfaceOf ifacePtr with
  | none => none
  | some t => some (i.SetVal t v)

/-- Model of a func value passed to `Invoke`: its declared parameter types
(`t.In(0) .. t.In(NumIn-1)`) and the call itself, mapping the argument list
to the list of return values (`reflect.ValueOf(f).Call(in)`). -/
structure FuncVal where
  params : List Ty
  call : List Val → List Val

/-- The argument-resolution loop of `injector.Invoke`: for each declared
parameter type in order, `Get` it; the first invalid result aborts with an
error naming that type (`fmt.Errorf("Value not found for type %v", argType)`,
modelled as `.error argType`). -/
def resolveArgs (i : Injector) : List Ty → Except Ty (List Val)
  | [] => .ok []
  | t :: ts =>
    match i.Get t with
    | none => .error t
    | some v =>
      match resolveArgs i ts with
      | .error u => .error u
      | .ok vs => .ok (v :: vs)

/-- `injector.Invoke`: resolve every declared parameter type, then perform
the call with the resolved arguments in declared order; the call does not
happen when resolution fails. -/
def Injector.Invoke (i : Injector) (f : FuncVal) : Except Ty (List Val) :=
  match resolveArgs i f.params with
  | .error t => .error t
  | .ok args => .ok (f.call args)

/-- Model of one struct field (cf. `reflect.StructField`) as seen by `injector.Apply`: `tagInject` is
the evaluated tag condition
`structField.Tag == "inject" || structField.Tag.Get("inject") != ""`,
`canSet` is `f.CanSet()`, `ty` is `f.Type()` and `value` the field's
current contents. -/
structure StructField where
  tagInject : Bool
  canSet : Bool
  ty : Ty
  value : Val
deriving DecidableEq

/-- Model of the `reflect.Value` handed to `Apply`: a pointer, a struct
with its declared fields in order, or any other (non-struct) value. -/
inductive RVal where
  | ptr (elem : RVal)
  | strct (fields : List StructField)
  | other (v : Val)
deriving DecidableEq

/-- The field loop of `injector.Apply`: for each field with
`f.CanSet() && tagged`, `Get` its type; an invalid result returns the
error naming the field's type at once (fields already set stay set, later
fields are untouched); otherwise `f.Set(v)`. -/
def applyFields (i : Injector) : List StructField → List StructField × Option Ty
  | [] => ([], none)
  | f :: rest =>
    if f.canSet && f.tagInject then
      match i.Get f.ty with
      | none => (f :: rest, some f.ty)
      | some v =>
        let r := applyFields i rest
        ({ f with value := v } :: r.1, r.2)
    else
      let r := applyFields i rest
      (f :: r.1, r.2)

/-- `injector.Apply`: dereference pointers; a non-struct input returns nil
(no error, nothing changed); a struct input runs the field loop.  The
returned `RVal` is the input as mutated in place through the pointer. -/
def Injector.Apply (i : Injector) : RVal → RVal × Option Ty
  | .ptr w =>
    let r := i.Apply w
    (.ptr r.1, r.2)
  | .strct fs =>
    let r := applyFields i fs
    (.strct r.1, r.2)
  | .other v => (.other v, none)

/-- `v.Kind() != reflect.Struct` after the pointer-dereference loop of
`Apply`: the input is a no-op for `Apply`. -/
def noStruct : RVal → Bool
  | .ptr w => noStruct w
  | .strct _ => false
  | .other _ => true

/-- The validation loop of `injector.On`: every handler is validated
before anything is appended, so the first panic (in argument order)
aborts the whole call. -/
def firstPanic : List HandlerSig → Option PanicKind
  | [] => none
  | h :: rest =>
    match validateHandler h with
    | some k => some k
    | none => firstPanic rest

/-- Go map read `i.handlers[key]`: an absent key reads as the nil slice,
modelled as `[]`.  (`On` never stores an empty non-nil slice, so the
source's `i.handlers[key] != nil` test is exactly `getHandlers ≠ []`.) -/
def getHandlers (tbl : List (String × List HandlerSig)) (key : String) :
    List HandlerSig :=
  match tbl with
  | [] => []
  | (k, hs) :: rest => if k = key then hs else getHandlers rest key

/-- Go map assignment `i.handlers[key] = hs`. -/
def setHandlers (tbl : List (String × List HandlerSig)) (key : String)
    (hs : List HandlerSig) : List (String × List HandlerSig) :=
  match tbl with
  | [] => [(key, hs)]
  | (k, old) :: rest =>
    if k = key then (key, hs) :: rest else (k, old) :: setHandlers rest key hs

/-- `injector.On`: validate every handler (a panic, `.error`, aborts with
nothing appended), then bind the handler list for `key` to the given
handlers if none were registered, or to the old list with the new ones
appended (insertion order preserved). -/
def Injector.On (i : Injector) (key : String) (hs : List HandlerSig) :
    Except PanicKind Injector :=
  match firstPanic hs with
  | some k => .error k
  | none =>
    let old := getHandlers i.handlers key
    if old.isEmpty then .ok (i.withHandlers (setHandlers i.handlers key hs))
    else .ok (i.withHandlers (setHandlers i.handlers key (old ++ hs)))

/-- `injector.Fire`: if no handlers are registered for `key` locally, do
nothing (the payload is dropped); otherwise construct
`Event{Src: i, Type: key, Data: data}` and send it on the `events`
channel. -/
def Injector.Fire (i : Injector) (key : String) (data : Val) : Injector :=
  if (getHandlers i.handlers key).isEmpty then i
  else i.withEvents (i.events ++ [⟨i.id, key, data⟩])

/-- State of the dispatch goroutine of one bus: `idle` before `Start`
(no goroutine exists), `running` while the `Start` goroutine loops on its
`select`, `exited` after the goroutine received on `stopped` and
returned. -/
inductive LoopState where
  | idle
  | running
  | exited
deriving DecidableEq

/-- `injector.Start`: spawns the dispatch goroutine, whose `select`
receives on `events` and on `stopped`. -/
def startLoop : LoopState → LoopState := fun _ => .running

/-- `injector.Stop` is `i.stopped <- true`: a send on the unbuffered
`stopped` channel.  An unbuffered send completes only when a receiver is
ready; the only receiver is the dispatch goroutine's `select`, so the send
completes (returning the loop state after the rendezvous) exactly when the
loop is `running`, and blocks forever (`none`) when the loop is `idle` or
has `exited`. -/
def stopSend : LoopState → Option LoopState
  | .running => some .exited
  | _ => none

/-! ### Helper lemmas about the registry association list -/

theorem lookupVal_insertVal_self (m : List (Ty × Val)) (t : Ty) (v : Val) :
    lookupVal (insertVal m t v) t = some v := by
  induction m with
  | nil => simp [insertVal, lookupVal]
  | cons kv rest ih =>
    obtain ⟨k, w⟩ := kv
    by_cases h : k = t
    · simp [insertVal, h, lookupVal]
    · simp [insertVal, h, lookupVal, ih]

theorem lookupVal_insertVal_ne (m : List (Ty × Val)) (t u : Ty) (v : Val)
    (h : u ≠ t) : lookupVal (insertVal m t v) u = lookupVal m u := by
  induction m with
  | nil => simp [insertVal, lookupVal, Ne.symm h]
  | cons kv rest ih =>
    obtain ⟨k, w⟩ := kv
    by_cases hk : k = t
    · subst hk
      simp [insertVal, lookupVal, Ne.symm h]
    · simp [insertVal, hk, lookupVal, ih]

theorem mem_keys_insertVal (m : List (Ty × Val)) (t u : Ty) (v : Val) :
    u ∈ (insertVal m t v).map Prod.fst ↔ u = t ∨ u ∈ m.map Prod.fst := by
  induction m with
  | nil => simp [insertVal]
  | cons kv rest ih =>
    obtain ⟨k, w⟩ := kv
    by_cases hk : k = t
    · subst hk
      simp [insertVal]
    · simp [insertVal, hk, ih]
      tauto

theorem insertVal_keys_nodup (m : List (Ty × Val)) (t : Ty) (v : Val)
    (h : (m.map Prod.fst).Nodup) :
    ((insertVal m t v).map Prod.fst).Nodup := by
  induction m with
  | nil => simp [insertVal]
  | cons kv rest ih =>
    obtain ⟨k, w⟩ := kv
    simp only [List.map_cons, List.nodup_cons] at h
    by_cases hk : k = t
    · subst hk
      simpa [insertVal, List.nodup_cons] using h
    · simp only [insertVal, hk, if_false, List.map_cons, List.nodup_cons]
      refine ⟨fun hm => ?_, ih h.2⟩
      rcases (mem_keys_insertVal rest t k v).1 hm with h1 | h1
      · exact hk h1
      · exact h.1 h1

theorem scanImpl_eq_none_iff (vs : List (Ty × Val)) (t : Ty) :
    scanImpl vs t = none ↔ ∀ kv ∈ vs, kv.1.implements t = false := by
  induction vs with
  | nil => simp [scanImpl]
  | cons kv rest ih =>
    obtain ⟨k, v⟩ := kv
    by_cases h : k.implements t <;> simp [scanImpl, h, ih]

theorem scanImpl_first (pre : List (Ty × Val)) (k : Ty) (v : Val)
    (post : List (Ty × Val)) (t : Ty)
    (hpre : ∀ kv ∈ pre, kv.1.implements t = false)
    (hk : k.implements t = true) :
    scanImpl (pre ++ (k, v) :: post) t = some v := by
  induction pre with
  | nil => simp [scanImpl, hk]
  | cons kv rest ih =>
    obtain ⟨k2, w⟩ := kv
    have h2 : k2.implements t = false := hpre (k2, w) (by simp)
    simp only [List.cons_append, scanImpl, h2, Bool.false_eq_true, if_false]
    exact ih fun kv hm => hpre kv (by simp [hm])

theorem implements_isInterface (k t : Ty) (h : k.implements t = true) :
    t.isInterface = true := by
  cases k <;> cases t <;> simp_all [Ty.implements, Ty.isInterface]

theorem localGet_of_lookup (vs : List (Ty × Val)) (t : Ty) (v : Val)
    (h : lookupVal vs t = some v) : Injector.localGet vs t = some v := by
  simp [Injector.localGet, h]

theorem localGet_eq_none (vs : List (Ty × Val)) (t : Ty)
    (h : lookupVal vs t = none)
    (hscan : ∀ kv ∈ vs, kv.1.implements t = false) :
    Injector.localGet vs t = none := by
  simp only [Injector.localGet, h]
  by_cases hi : t.isInterface <;>
    simp [hi, (scanImpl_eq_none_iff vs t).2 hscan]

/-! ### Unfolding lemmas for the `Injector` accessors and `Get` -/

@[simp] theorem Injector.values_root (n : Nat) (vs : List (Ty × Val))
    (tbl : List (String × List HandlerSig)) (es : List Event) :
    (Injector.root n vs tbl es).values = vs := rfl

@[simp] theorem Injector.values_child (n : Nat) (vs : List (Ty × Val))
    (tbl : List (String × List HandlerSig)) (es : List Event) (p : Injector) :
    (Injector.child n vs tbl es p).values = vs := rfl

@[simp] theorem Injector.parent_root (n : Nat) (vs : List (Ty × Val))
    (tbl : List (String × List HandlerSig)) (es : List Event) :
    (Injector.root n vs tbl es).parent = none := rfl

@[simp] theorem Injector.parent_child (n : Nat) (vs : List (Ty × Val))
    (tbl : List (String × List HandlerSig)) (es : List Event) (p : Injector) :
    (Injector.child n vs tbl es p).parent = some p := rfl

@[simp] theorem Injector.get_root (n : Nat) (vs : List (Ty × Val))
    (tbl : List (String × List HandlerSig)) (es : List Event) (t : Ty) :
    (Injector.root n vs tbl es).Get t = Injector.localGet vs t := rfl

theorem Injector.get_child (n : Nat) (vs : List (Ty × Val))
    (tbl : List (String × List HandlerSig)) (es : List Event) (p : Injector)
    (t : Ty) :
    (Injector.child n vs tbl es p).Get t =
      match Injector.localGet vs t with
      | some v => some v
      | none => p.Get t := rfl

/-- The local-resolution step yields `some v` when the implementor scan is
reached with a first match at `(k, v)`. -/
theorem localGet_scan (vs pre : List (Ty × Val)) (k : Ty) (v : Val)
    (post : List (Ty × Val)) (t : Ty) (hvs : vs = pre ++ (k, v) :: post)
    (hl : lookupVal vs t = none)
    (hpre : ∀ kv ∈ pre, kv.1.implements t = false)
    (hk : k.implements t = true) : Injector.localGet vs t = some v := by
  subst hvs
  simp [Injector.localGet, hl, implements_isInterface k t hk,
    scanImpl_first pre k v post t hpre hk]

/-- Claim C1: `Get(t)` resolution order — an exact binding in the local
map is returned immediately; otherwise, if `t` is an interface type, the
first locally registered binding whose key implements `t` is returned;
otherwise the result is the parent's `Get(t)`; otherwise `Get` returns the
not-found sentinel (`none`) without raising an error. -/
theorem get_resolution_order (i : Injector) (t : Ty) :
    (∀ v, lookupVal i.values t = some v → i.Get t = some v)
    ∧ (∀ pre k v post, i.values = pre ++ (k, v) :: post →
        lookupVal i.values t = none →
        (∀ kv ∈ pre, kv.1.implements t = false) → k.implements t = true →
        i.Get t = some v)
    ∧ (∀ p, i.parent = some p → lookupVal i.values t = none →
        (∀ kv ∈ i.values, kv.1.implements t = false) →
        i.Get t = p.Get t)
    ∧ (i.parent = none → lookupVal i.values t = none →
        (∀ kv ∈ i.values, kv.1.implements t = false) →
        i.Get t = none) := by
  cases i with
  | root n vs tbl es =>
    refine ⟨?_, ?_, ?_, ?_⟩
    · intro v h
      simp only [Injector.values_root] at h
      simp [localGet_of_lookup vs t v h]
    · intro pre k v post hvs hl hpre hk
      simp only [Injector.values_root] at hvs hl
      simp [localGet_scan vs pre k v post t hvs hl hpre hk]
    · intro p hp
      simp at hp
    · intro _ hl hall
      simp only [Injector.values_root] at hl hall
      simp [localGet_eq_none vs t hl hall]
  | child n vs tbl es p =>
    refine ⟨?_, ?_, ?_, ?_⟩
    · intro v h
      simp only [Injector.values_child] at h
      simp [Injector.get_child, localGet_of_lookup vs t v h]
    · intro pre k v post hvs hl hpre hk
      simp only [Injector.values_child] at hvs hl
      simp [Injector.get_child, localGet_scan vs pre k v post t hvs hl hpre hk]
    · intro p2 hp hl hall
      simp only [Injector.parent_child, Option.some.injEq] at hp
      subst hp
      simp only [Injector.values_child] at hl hall
      simp [Injector.get_child, localGet_eq_none vs t hl hall]
    · intro hp
      simp at hp

/-- Witness for C1 at a concrete registry: an exact local binding is
returned immediately. -/
theorem get_resolution_order_witness :
    (Injector.root 0 [(Ty.conc 1 [], ⟨Ty.conc 1 [], 5⟩)] [] []).Get
      (Ty.conc 1 []) = some ⟨Ty.conc 1 [], 5⟩ :=
  (get_resolution_order (Injector.root 0 [(Ty.conc 1 [], ⟨Ty.conc 1 [], 5⟩)] [] [])
    (Ty.conc 1 [])).1 ⟨Ty.conc 1 [], 5⟩ (by decide)

/-! ### Shared lemmas about `Map`, `Set`, `SetParent` and `Get` -/

theorem Injector.get_of_lookup (i : Injector) (t : Ty) (v : Val)
    (h : lookupVal i.values t = some v) : i.Get t = some v := by
  cases i <;> simp_all [Injector.get_child, Injector.localGet]

@[simp] theorem Injector.values_withValues (i : Injector)
    (vs : List (Ty × Val)) : (i.withValues vs).values = vs := by
  cases i <;> rfl

@[simp] theorem Injector.values_map (i : Injector) (v : Val) :
    (i.Map v).values = insertVal i.values v.ty v := by
  cases i <;> rfl

@[simp] theorem Injector.values_setVal (i : Injector) (t : Ty) (v : Val) :
    (i.SetVal t v).values = insertVal i.values t v := by
  cases i <;> rfl

theorem Injector.setParent_eq (c p : Injector) :
    c.SetParent p = Injector.child c.id c.values c.handlers c.events p := by
  cases c <;> rfl

/-- Claim C2: after `Map(v)`, `Get` on `v`'s type descriptor returns `v`;
the binding persists until a later `Map`/`MapTo`/`Set` binds the same
descriptor; re-mapping the same descriptor silently overwrites (last
writer wins); and the registry keeps at most one binding per descriptor
(unique keys are preserved). -/
theorem map_get_last_writer_wins (i : Injector) (v w u : Val) (t pw : Ty) :
    ((i.Map v).Get v.ty = some v)
    ∧ (w.ty ≠ v.ty → ((i.Map v).Map w).Get v.ty = some v)
    ∧ (t ≠ v.ty → ((i.Map v).SetVal t u).Get v.ty = some v)
    ∧ (∀ itf i2, InterfaceOf pw = some itf → itf ≠ v.ty →
        (i.Map v).MapTo u pw = some i2 → i2.Get v.ty = some v)
    ∧ (w.ty = v.ty → ((i.Map v).Map w).Get v.ty = some w)
    ∧ ((i.values.map Prod.fst).Nodup → ((i.Map v).values.map Prod.fst).Nodup) := by
  refine ⟨?_, ?_, ?_, ?_, ?_, ?_⟩
  · exact (i.Map v).get_of_lookup v.ty v
      (by simp [lookupVal_insertVal_self])
  · intro hne
    refine ((i.Map v).Map w).get_of_lookup v.ty v ?_
    simp only [Injector.values_map]
    rw [lookupVal_insertVal_ne _ _ _ _ (Ne.symm hne)]
    exact lookupVal_insertVal_self _ _ _
  · intro hne
    refine ((i.Map v).SetVal t u).get_of_lookup v.ty v ?_
    simp only [Injector.values_setVal, Injector.values_map]
    rw [lookupVal_insertVal_ne _ _ _ _ (Ne.symm hne)]
    exact lookupVal_insertVal_self _ _ _
  · intro itf i2 hio hne hmt
    simp only [Injector.MapTo, hio] at hmt
    cases hmt
    refine Injector.get_of_lookup _ v.ty v ?_
    simp only [Injector.values_setVal, Injector.values_map]
    rw [lookupVal_insertVal_ne _ _ _ _ (Ne.symm hne)]
    exact lookupVal_insertVal_self _ _ _
  · intro heq
    refine ((i.Map v).Map w).get_of_lookup v.ty w ?_
    simp only [Injector.values_map, heq]
    exact lookupVal_insertVal_self _ _ _
  · intro hnd
    simpa using insertVal_keys_nodup i.values v.ty v hnd

/-- Witness for C2 at concrete values: the binding made by `Map` survives
a later `Map` of a different type descriptor. -/
theorem map_get_last_writer_wins_witness :
    (((Injector.New 0).Map ⟨Ty.conc 1 [], 5⟩).Map ⟨Ty.conc 2 [], 6⟩).Get
      (Ty.conc 1 []) = some ⟨Ty.conc 1 [], 5⟩ :=
  (map_get_last_writer_wins (Injector.New 0) ⟨Ty.conc 1 [], 5⟩
    ⟨Ty.conc 2 [], 6⟩ ⟨Ty.conc 2 [], 6⟩ (Ty.conc 2 []) (Ty.conc 2 [])).2.1
    (by decide)

/-- Claim C3: with a parent set via `SetParent`, a type descriptor with no
local binding (neither exact nor by implementor scan) resolves to the
parent's `Get`, so a type bound only in the parent resolves through the
child; and a type bound in the child resolves to the child's binding,
shadowing any parent binding. -/
theorem parent_chain_shadowing (c p : Injector) (t : Ty) :
    (lookupVal c.values t = none →
      (∀ kv ∈ c.values, kv.1.implements t = false) →
      (c.SetParent p).Get t = p.Get t)
    ∧ (∀ v, lookupVal c.values t = some v → (c.SetParent p).Get t = some v) := by
  constructor
  · intro hl hall
    rw [Injector.setParent_eq]
    simp [Injector.get_child, localGet_eq_none c.values t hl hall]
  · intro v h
    rw [Injector.setParent_eq]
    simp [Injector.get_child, localGet_of_lookup c.values t v h]

/-- Witness for C3 at concrete registries: a type bound only in the parent
resolves through the child, and a type bound in both resolves to the
child's binding. -/
theorem parent_chain_shadowing_witness :
    ((Injector.New 0).SetParent ((Injector.New 1).Map ⟨Ty.conc 1 [], 5⟩)).Get
      (Ty.conc 1 []) = some ⟨Ty.conc 1 [], 5⟩
    ∧ ((((Injector.New 0).Map ⟨Ty.conc 1 [], 7⟩).SetParent
        ((Injector.New 1).Map ⟨Ty.conc 1 [], 5⟩)).Get (Ty.conc 1 [])
      = some ⟨Ty.conc 1 [], 7⟩) :=
  ⟨by
    have h := (parent_chain_shadowing (Injector.New 0)
      ((Injector.New 1).Map ⟨Ty.conc 1 [], 5⟩) (Ty.conc 1 [])).1
      (by decide) (by decide)
    rw [h]
    decide,
   (parent_chain_shadowing ((Injector.New 0).Map ⟨Ty.conc 1 [], 7⟩)
      ((Injector.New 1).Map ⟨Ty.conc 1 [], 5⟩) (Ty.conc 1 [])).2
      ⟨Ty.conc 1 [], 7⟩ (by decide)⟩

/-! ### Lemmas about `Invoke` -/

theorem resolveArgs_ok (i : Injector) (ps : List Ty)
    (h : ∀ u ∈ ps, (i.Get u).isSome) :
    resolveArgs i ps = .ok (ps.map fun u => (i.Get u).getD default) := by
  induction ps with
  | nil => simp [resolveArgs]
  | cons t ts ih =>
    obtain ⟨v, hv⟩ := Option.isSome_iff_exists.1 (h t (by simp))
    rw [List.map_cons]
    simp only [resolveArgs, hv, ih fun u hu => h u (by simp [hu]), hv,
      Option.getD_some]

theorem resolveArgs_error_first (i : Injector) (pre post : List Ty) (t : Ty)
    (hpre : ∀ u ∈ pre, (i.Get u).isSome) (ht : i.Get t = none) :
    resolveArgs i (pre ++ t :: post) = .error t := by
  induction pre with
  | nil => simp [resolveArgs, ht]
  | cons u us ih =>
    obtain ⟨v, hv⟩ := Option.isSome_iff_exists.1 (hpre u (by simp))
    simp only [List.cons_append, resolveArgs, hv, List.append_eq,
      ih fun w hw => hpre w (by simp [hw])]

/-- Claim C4: `Invoke` is all-or-nothing.  When some declared parameter
type resolves to not-found, `Invoke` returns an error naming the first
such type, and the function is never called: the result does not depend on
the function's body at all.  When every parameter type resolves, `Invoke`
calls the function with the resolved arguments in declared order and
returns its return values with no error. -/
theorem invoke_all_or_nothing (i : Injector) (ps pre post : List Ty) (t : Ty)
    (c c' : List Val → List Val) :
    ((∀ u ∈ ps, (i.Get u).isSome) →
      Injector.Invoke i ⟨ps, c⟩ =
        .ok (c (ps.map fun u => (i.Get u).getD default)))
    ∧ (ps = pre ++ t :: post → (∀ u ∈ pre, (i.Get u).isSome) →
        i.Get t = none →
        Injector.Invoke i ⟨ps, c⟩ = .error t
        ∧ Injector.Invoke i ⟨ps, c⟩ = Injector.Invoke i ⟨ps, c'⟩) := by
  constructor
  · intro h
    simp [Injector.Invoke, resolveArgs_ok i ps h]
  · intro hps hpre ht
    subst hps
    have herr := resolveArgs_error_first i pre post t hpre ht
    simp [Injector.Invoke, herr]

/-- Witness for C4 at a concrete function and registry: with the one
declared parameter type unbound, `Invoke` errors naming it and the result
is independent of the function's body (which is therefore never run). -/
theorem invoke_all_or_nothing_witness :
    (Injector.New 0).Get (Ty.iface 9) = none
    ∧ Injector.Invoke (Injector.New 0) ⟨[Ty.iface 9], fun _ => []⟩
        = .error (Ty.iface 9)
    ∧ Injector.Invoke (Injector.New 0) ⟨[Ty.iface 9], fun _ => []⟩
        = Injector.Invoke (Injector.New 0)
          ⟨[Ty.iface 9], fun _ => [⟨Ty.conc 1 [], 1⟩]⟩ :=
  ⟨by decide,
    (invoke_all_or_nothing (Injector.New 0) [Ty.iface 9] [] [] (Ty.iface 9)
      (fun _ => []) (fun _ => [⟨Ty.conc 1 [], 1⟩])).2 rfl (by decide)
      (by decide)⟩

/-! ### Lemmas about `Apply` -/

/-- The effect of one iteration of the `Apply` field loop when it does not
fail: a settable field tagged for injection whose type resolves is set to
the resolved value; every other field is left as it is. -/
def assignField (i : Injector) (g : StructField) : StructField :=
  if g.canSet && g.tagInject then
    match i.Get g.ty with
    | some v => { g with value := v }
    | none => g
  else g

/-- Counterexample to claim C5 as stated: a field tagged for injection but
not settable (`CanSet() == false`, as for any field of a non-addressable
struct value) whose declared type has no binding produces no error —
`Apply` skips it (the source tests `f.CanSet()` before the tag) and
returns nil with the struct unchanged, instead of the error naming
`Ty.conc 3 []` that the claim requires. -/
theorem apply_unsettable_tagged_counterexample :
    (Injector.New 0).Apply
      (.strct [⟨true, false, Ty.conc 3 [], ⟨Ty.conc 3 [], 0⟩⟩])
      = (.strct [⟨true, false, Ty.conc 3 [], ⟨Ty.conc 3 [], 0⟩⟩], none)
    ∧ (Injector.New 0).Get (Ty.conc 3 []) = none := by
  constructor <;> rfl

/-- `Forall₂` of the untagged-unchanged relation is reflexive. -/
theorem forall₂_tag_refl (l : List StructField) :
    List.Forall₂ (fun a b => a.tagInject = false → b = a) l l := by
  induction l with
  | nil => exact List.Forall₂.nil
  | cons a r ih => exact List.Forall₂.cons (fun _ => rfl) ih

/-- Claim C5 as amended: if the first *settable* field tagged for
injection whose declared type cannot be resolved is `f`, `Apply` returns
an error naming `f`'s type; the fields before `f` keep the values the loop
already assigned (no rollback) and the fields after `f` are untouched. -/
theorem apply_first_unresolved_settable_field_errors (i : Injector)
    (pre post : List StructField) (f : StructField)
    (hpre : ∀ g ∈ pre, (g.canSet && g.tagInject) = true → (i.Get g.ty).isSome)
    (hcs : f.canSet = true) (htag : f.tagInject = true)
    (hget : i.Get f.ty = none) :
    i.Apply (.strct (pre ++ f :: post)) =
      (.strct (pre.map (assignField i) ++ f :: post), some f.ty) := by
  have hfields : applyFields i (pre ++ f :: post) =
      (pre.map (assignField i) ++ f :: post, some f.ty) := by
    induction pre with
    | nil => simp [applyFields, hcs, htag, hget]
    | cons g gs ih =>
      have ihg := ih fun a ha hb => hpre a (by simp [ha]) hb
      by_cases hg : (g.canSet && g.tagInject) = true
      · obtain ⟨v, hv⟩ := Option.isSome_iff_exists.1 (hpre g (by simp) hg)
        simp only [List.cons_append, applyFields, if_pos hg, hv,
          List.append_eq, ihg, List.map_cons, assignField, if_pos hg]
      · simp only [List.cons_append, applyFields, if_neg hg,
          List.append_eq, ihg, List.map_cons, assignField, if_neg hg]
  simp [Injector.Apply, hfields]

/-- Witness for the amended C5 at a concrete struct: the first (settable,
tagged, resolvable) field is assigned, the second (settable, tagged,
unresolvable) field triggers the error naming its type, the third is
untouched. -/
theorem apply_first_unresolved_settable_field_errors_witness :
    ((Injector.New 0).Map ⟨Ty.conc 1 [], 7⟩).Apply
      (.strct [⟨true, true, Ty.conc 1 [], ⟨Ty.conc 1 [], 0⟩⟩,
        ⟨true, true, Ty.iface 9, ⟨Ty.conc 9 [], 0⟩⟩,
        ⟨true, true, Ty.conc 1 [], ⟨Ty.conc 1 [], 1⟩⟩])
      = (.strct ([⟨true, true, Ty.conc 1 [], ⟨Ty.conc 1 [], 0⟩⟩].map
            (assignField ((Injector.New 0).Map ⟨Ty.conc 1 [], 7⟩))
          ++ ⟨true, true, Ty.iface 9, ⟨Ty.conc 9 [], 0⟩⟩
            :: [⟨true, true, Ty.conc 1 [], ⟨Ty.conc 1 [], 1⟩⟩]),
        some (Ty.iface 9)) :=
  apply_first_unresolved_settable_field_errors
    ((Injector.New 0).Map ⟨Ty.conc 1 [], 7⟩)
    [⟨true, true, Ty.conc 1 [], ⟨Ty.conc 1 [], 0⟩⟩]
    [⟨true, true, Ty.conc 1 [], ⟨Ty.conc 1 [], 1⟩⟩]
    ⟨true, true, Ty.iface 9, ⟨Ty.conc 9 [], 0⟩⟩
    (by decide) rfl rfl (by decide)

/-- Claim C6: `Apply` modifies only fields tagged for injection — every
field whose tag condition is false keeps its exact original contents, in
place — and a non-struct input (after pointer dereferencing) is a no-op
returning success (nil error). -/
theorem apply_frame_untagged_unchanged (i : Injector)
    (fs : List StructField) (v : RVal) :
    List.Forall₂ (fun a b => a.tagInject = false → b = a) fs
      (applyFields i fs).1
    ∧ (noStruct v = true → i.Apply v = (v, none)) := by
  constructor
  · induction fs with
    | nil => simp [applyFields]
    | cons f rest ih =>
      by_cases hf : (f.canSet && f.tagInject) = true
      · cases hv : i.Get f.ty with
        | none =>
          simp only [applyFields, if_pos hf, hv]
          exact List.Forall₂.cons (fun _ => rfl) (forall₂_tag_refl rest)
        | some w =>
          simp only [applyFields, if_pos hf, hv]
          refine List.Forall₂.cons (fun hft => ?_) ih
          rw [Bool.and_eq_true] at hf
          rw [hf.2] at hft
          cases hft
      · simp only [applyFields, if_neg hf]
        exact List.Forall₂.cons (fun _ => rfl) ih
  · intro hns
    induction v with
    | ptr w ihw =>
      simp only [noStruct] at hns
      simp [Injector.Apply, ihw hns]
    | strct fs2 => simp [noStruct] at hns
    | other u => rfl

/-- Witness for C6 at concrete inputs: an untagged field next to a tagged
resolvable one is untouched, and a non-struct value is a no-op success. -/
theorem apply_frame_untagged_unchanged_witness :
    List.Forall₂ (fun a b => a.tagInject = false → b = a)
      [⟨true, true, Ty.conc 1 [], ⟨Ty.conc 1 [], 0⟩⟩,
        (⟨false, true, Ty.conc 2 [], ⟨Ty.conc 2 [], 3⟩⟩ : StructField)]
      (applyFields ((Injector.New 0).Map ⟨Ty.conc 1 [], 7⟩)
        [⟨true, true, Ty.conc 1 [], ⟨Ty.conc 1 [], 0⟩⟩,
          ⟨false, true, Ty.conc 2 [], ⟨Ty.conc 2 [], 3⟩⟩]).1
    ∧ ((Injector.New 0).Apply (RVal.ptr (RVal.other ⟨Ty.conc 1 [], 3⟩))
        = (RVal.ptr (RVal.other ⟨Ty.conc 1 [], 3⟩), none)) :=
  ⟨(apply_frame_untagged_unchanged ((Injector.New 0).Map ⟨Ty.conc 1 [], 7⟩)
      [⟨true, true, Ty.conc 1 [], ⟨Ty.conc 1 [], 0⟩⟩,
        ⟨false, true, Ty.conc 2 [], ⟨Ty.conc 2 [], 3⟩⟩]
      (RVal.other ⟨Ty.conc 1 [], 3⟩)).1,
    (apply_frame_untagged_unchanged (Injector.New 0) []
      (RVal.ptr (RVal.other ⟨Ty.conc 1 [], 3⟩))).2 (by decide)⟩

/-! ### The event-bus operations -/

/-- Claim C7 (refuted by the source): the first-parameter check of
`validateHandler` is dead code.  Because the source tests
`t.NumIn() == 0 && t.In(0) != Event.Type` with `&&`, a function whose
first declared parameter is *not* the `Event` type passes validation
(`none`, no panic) and `On` appends it to the handler table, while a
function with no parameters panics inside `t.In(0)` with a reflect
range panic rather than the documented message. -/
theorem validate_handler_event_check_dead :
    validateHandler ⟨true, [Ty.conc 7 []]⟩ = none
    ∧ (Injector.New 0).On "evt" [⟨true, [Ty.conc 7 []]⟩]
        = .ok (Injector.root 0 [] [("evt", [⟨true, [Ty.conc 7 []]⟩])] [])
    ∧ validateHandler ⟨true, []⟩ = some PanicKind.reflectInRange
    ∧ validateHandler ⟨false, [Ty.conc 7 []]⟩ = some PanicKind.notFunc := by
  refine ⟨rfl, ?_, rfl, rfl⟩
  rfl

@[simp] theorem Injector.handlers_root (n : Nat) (vs : List (Ty × Val))
    (tbl : List (String × List HandlerSig)) (es : List Event) :
    (Injector.root n vs tbl es).handlers = tbl := rfl

@[simp] theorem Injector.handlers_child (n : Nat) (vs : List (Ty × Val))
    (tbl : List (String × List HandlerSig)) (es : List Event) (p : Injector) :
    (Injector.child n vs tbl es p).handlers = tbl := rfl

/-- Claim C8: `Fire(kind, payload)` with no handlers registered for `kind`
in the local handler table is a no-op — the injector (and in particular
its `events` channel) is unchanged and the payload is dropped; with
handlers registered, exactly the event
`{Src = the firing bus, Type = kind, Data = payload}` is sent on the
`events` channel. -/
theorem fire_enqueue_or_noop (i : Injector) (key : String) (d : Val) :
    (getHandlers i.handlers key = [] → i.Fire key d = i)
    ∧ (getHandlers i.handlers key ≠ [] →
        i.Fire key d = i.withEvents (i.events ++ [⟨i.id, key, d⟩])) := by
  constructor
  · intro h
    simp [Injector.Fire, h]
  · intro h
    rw [Injector.Fire, if_neg (by simpa [List.isEmpty_iff] using h)]

/-- Witness for C8 at a concrete bus: with no handler for the kind the
fire is dropped; with a handler registered, the event is enqueued. -/
theorem fire_enqueue_or_noop_witness :
    ((Injector.root 3 [] [("evt", [⟨true, [Ty.conc 0 []]⟩])] []).Fire "other"
        ⟨Ty.conc 1 [], 4⟩
      = Injector.root 3 [] [("evt", [⟨true, [Ty.conc 0 []]⟩])] [])
    ∧ ((Injector.root 3 [] [("evt", [⟨true, [Ty.conc 0 []]⟩])] []).Fire "evt"
        ⟨Ty.conc 1 [], 4⟩
      = (Injector.root 3 [] [("evt", [⟨true, [Ty.conc 0 []]⟩])] []).withEvents
          ([] ++ [⟨3, "evt", ⟨Ty.conc 1 [], 4⟩⟩])) :=
  ⟨(fire_enqueue_or_noop (Injector.root 3 [] [("evt", [⟨true, [Ty.conc 0 []]⟩])] [])
      "other" ⟨Ty.conc 1 [], 4⟩).1 (by decide),
   (fire_enqueue_or_noop (Injector.root 3 [] [("evt", [⟨true, [Ty.conc 0 []]⟩])] [])
      "evt" ⟨Ty.conc 1 [], 4⟩).2 (by decide)⟩

/-- Claim C9 (refuted by the source): `Stop` can deadlock.  In the model
of the unbuffered `stopped` channel, a send completes only while the
dispatch loop spawned by `Start` is at its `select` (`running`).  The
first `Stop` after `Start` completes and the loop exits; a second `Stop`,
or a `Stop` on a bus that was never started, finds no receiver and its
send never completes (`none` — the caller blocks forever), contradicting
the claimed non-blocking no-op. -/
theorem stop_send_blocks_when_not_running :
    stopSend (startLoop .idle) = some .exited
    ∧ stopSend .exited = none
    ∧ stopSend .idle = none :=
  ⟨rfl, rfl, rfl⟩

/-- Claim C10: `MapTo` performs no assignability check.  For any value
`v` and any witness whose type dereferences to an interface type `itf`
(`InterfaceOf` succeeds), `MapTo` succeeds and binds `v` under `itf` —
with no hypothesis that `v`'s type implements `itf` — and a subsequent
`Get(itf)` returns `v` through the exact-match step. -/
theorem mapto_no_assignability_check (i : Injector) (v : Val) (w itf : Ty)
    (h : InterfaceOf w = some itf) :
    ∃ i2, i.MapTo v w = some i2
      ∧ lookupVal i2.values itf = some v
      ∧ i2.Get itf = some v := by
  refine ⟨i.SetVal itf v, ?_, ?_, ?_⟩
  · simp [Injector.MapTo, h]
  · simp [lookupVal_insertVal_self]
  · exact Injector.get_of_lookup _ itf v (by simp [lookupVal_insertVal_self])

/-- Witness for C10 at a concrete registry: `Ty.conc 1 []` implements no
interface at all, yet `MapTo` binds the value under `Ty.iface 5` (denoted
by the pointer witness) and `Get` returns it by exact match. -/
theorem mapto_no_assignability_check_witness :
    (Ty.conc 1 []).implements (Ty.iface 5) = false
    ∧ ∃ i2, (Injector.New 0).MapTo ⟨Ty.conc 1 [], 4⟩ (Ty.ptr (Ty.iface 5))
          = some i2
        ∧ lookupVal i2.values (Ty.iface 5) = some ⟨Ty.conc 1 [], 4⟩
        ∧ i2.Get (Ty.iface 5) = some ⟨Ty.conc 1 [], 4⟩ :=
  ⟨by decide,
    mapto_no_assignability_check (Injector.New 0) ⟨Ty.conc 1 [], 4⟩
      (Ty.ptr (Ty.iface 5)) (Ty.iface 5) (by decide)⟩
